import Mathlib

/-!
Verification of the NewtonFractal rendering core against its design
specification.  The definitions below are a shallow embedding of the
renderer found in the repository (renderthread translation unit:
`RenderThread::render`, `RenderThread::run`, `iterateX`, `func`).

Modelling conventions:
* Complex numbers are pairs of rationals (`Cq`); floating-point rounding
  is abstracted away, but the production of non-finite values (NaN or
  infinity from a division by a zero derivative) is modelled explicitly
  by `Option Cq`: `none` is a poisoned, non-finite value.  Every
  comparison against a poisoned value is `false`, exactly as every IEEE
  comparison with NaN is `false`.
* The per-pixel loop counter in the source is a `quint8`; its value after
  `n` increments is `n % 256`, which is how the loop guard and the
  darkening factor are computed below.
* The loop itself may fail to terminate (that is one of the results
  proved below), so it is embedded with an explicit fuel argument; the
  result `LoopResult.running` means the loop is still running after
  `fuel` executed iterations.
* Constants that live in the repository header `defaults.h` (absent from
  the sources at hand) are modelled from the spec where used; each such
  definition carries a doc comment saying so.
-/

namespace NewtonFractal

/-- Complex numbers with exact rational components, embedding the C++
`complex` (`std::complex<double>`) values manipulated by the renderer. -/
structure Cq where
  re : ℚ
  im : ℚ
deriving DecidableEq

namespace Cq

/-- Componentwise addition of complex values. -/
def add (a b : Cq) : Cq := ⟨a.re + b.re, a.im + b.im⟩

/-- Componentwise subtraction of complex values. -/
def sub (a b : Cq) : Cq := ⟨a.re - b.re, a.im - b.im⟩

/-- Complex multiplication. -/
def mul (a b : Cq) : Cq :=
  ⟨a.re * b.re - a.im * b.im, a.re * b.im + a.im * b.re⟩

/-- Squared magnitude, used to express the magnitude comparisons
`abs w < eps` exactly as `normSq w < eps * eps`. -/
def normSq (a : Cq) : ℚ := a.re * a.re + a.im * a.im

/-- Complex division by a nonzero divisor (the zero-divisor case is
handled by the `Option` layer `divO` below). -/
def div (a b : Cq) : Cq :=
  ⟨(a.re * b.re + a.im * b.im) / normSq b,
   (a.im * b.re - a.re * b.im) / normSq b⟩

/-- The complex zero. -/
def zero : Cq := ⟨0, 0⟩

/-- The complex one, the seed of the polynomial product in `func`. -/
def one : Cq := ⟨1, 0⟩

end Cq

/-- Modelled from the spec: `HS`, the half-step constant from the missing
header `defaults.h`; the spec calls it a small fixed offset used for the
finite-difference derivative. -/
def HS : ℚ := 1 / 1000000

/-- Modelled from the spec: `EPS`, the fixed small convergence tolerance
from the missing header `defaults.h` (the spec suggests 1e-6). -/
def EPS : ℚ := 1 / 1000000

/-- The fixed finite-difference step `static const complex step(HS, HS)`
of the renderer translation unit. -/
def stepC : Cq := ⟨HS, HS⟩

/-- The polynomial evaluator `func`: the product over all roots of
`(z - root)`, starting from `complex(1, 0)` and folding left in root
order, exactly as the source loop does. -/
def func (z : Cq) (roots : List Cq) : Cq :=
  roots.foldl (fun acc r => acc.mul (z.sub r)) Cq.one

/-- Lift of `func` to possibly poisoned arguments: a non-finite input
stays non-finite. -/
def funcO (z : Option Cq) (roots : List Cq) : Option Cq :=
  match z with
  | none => none
  | some z => some (func z roots)

/-- Addition on possibly poisoned values. -/
def addO (a b : Option Cq) : Option Cq :=
  match a, b with
  | some a, some b => some (a.add b)
  | _, _ => none

/-- Subtraction on possibly poisoned values. -/
def subO (a b : Option Cq) : Option Cq :=
  match a, b with
  | some a, some b => some (a.sub b)
  | _, _ => none

/-- Multiplication on possibly poisoned values. -/
def mulO (a b : Option Cq) : Option Cq :=
  match a, b with
  | some a, some b => some (a.mul b)
  | _, _ => none

/-- Division on possibly poisoned values.  A division by the complex
zero produces the poisoned value `none`, modelling the NaN/infinity the
C++ division produces there; the source performs this division without
any guard. -/
def divO (a b : Option Cq) : Option Cq :=
  match a, b with
  | some a, some b => if b = Cq.zero then none else some (a.div b)
  | _, _ => none

/-- The magnitude test `abs w < eps` of the source, on a possibly
poisoned value: comparisons against a poisoned (NaN) value are `false`,
as in IEEE arithmetic. -/
def absLtO (w : Option Cq) (eps : ℚ) : Bool :=
  match w with
  | none => false
  | some w => decide (Cq.normSq w < eps * eps)

/-- The finite-difference derivative of the source inner loop:
`dz = (func(z + step, roots) - func(z, roots)) / step`. -/
def dzOf (z : Option Cq) (roots : List Cq) : Option Cq :=
  divO (subO (funcO (addO z (some stepC)) roots) (funcO z roots)) (some stepC)

/-- One Newton iteration exactly as the source computes it:
`z0 = z - func(z, roots) / dz`.  Note that no damping factor appears. -/
def newtonStep (z : Option Cq) (roots : List Cq) : Option Cq :=
  subO z (divO (funcO z roots) (dzOf z roots))

/-- Definition following the words of the spec, for comparison with the
source: the claimed transition
`z value next = z - damping * evaluate(z, roots) / derivativeApprox(z, roots, step)`. -/
def claimedStep (z : Option Cq) (roots : List Cq) (damping : Cq) : Option Cq :=
  subO z (mulO (some damping) (divO (funcO z roots) (dzOf z roots)))

/-- The root-classification scan of the source: indices are tried in
increasing order starting at `k`, and the first root within `EPS` of the
converged value wins. -/
def scanRoots (z0 : Option Cq) : ℕ → List Cq → Option ℕ
  | _, [] => none
  | k, root :: rest =>
    if absLtO (subO z0 (some root)) EPS then some k
    else scanRoots z0 (k + 1) rest

/-- The classification entry point.  The source reads the root count
into a `quint8` (`quint8 rootCount = il.params.roots.size()`), so only
the first `roots.length % 256` roots are scanned. -/
def firstRootIdx (z0 : Option Cq) (roots : List Cq) : Option ℕ :=
  scanRoots z0 0 (roots.take (roots.length % 256))

/-- An RGB color with 8-bit channels, embedding `QColor`/`QRgb`. -/
structure Rgb where
  red : ℕ
  green : ℕ
  blue : ℕ
deriving DecidableEq

/-- Modelled from the spec: the Qt library function `QColor::darker`
(not part of this repository).  The spec describes it as darkening by a
percentage factor, clamped to the representable range; for a factor
below 100 the color is brightened instead.  This model scales every
channel by `100 / factor`, clamped to the 8-bit range, and is monotone:
a larger factor never yields a brighter channel. -/
def darken (c : Rgb) (factor : ℕ) : Rgb :=
  if factor = 0 then c
  else
    ⟨min 255 (c.red * 100 / factor),
     min 255 (c.green * 100 / factor),
     min 255 (c.blue * 100 / factor)⟩

/-- The fixed global palette of the renderer translation unit:
`static const QColor colors[NR] = { Qt::red, Qt::green, Qt::blue,
Qt::cyan, Qt::magenta, Qt::yellow }`.  Roots of this renderer are bare
complex numbers and carry no color of their own. -/
def palette : List Rgb :=
  [⟨255, 0, 0⟩, ⟨0, 255, 0⟩, ⟨0, 0, 255⟩,
   ⟨0, 255, 255⟩, ⟨255, 0, 255⟩, ⟨255, 255, 0⟩]

/-- Definition following the words of the claim, for comparison with the
source: the output color of a converged pixel as the claim states it,
namely the color stored in the root itself darkened by `50 + 10 * count`
(per the data model, a root created without an explicit color gets the
default `Qt::black`). -/
def specConvergedColor (rootColor : Rgb) (count : ℕ) : Rgb :=
  darken rootColor (50 + 10 * count)

/-- Result of the per-pixel Newton loop of `iterateX`. -/
inductive LoopResult
  /-- The fixed-point test passed and root `rootIdx` matched; `count` is
  the wrapped `quint8` loop counter at that iteration (the darkening
  count). -/
  | converged (rootIdx : ℕ) (count : ℕ)
  /-- The fixed-point test passed but no root was within tolerance; the
  loop breaks without writing the pixel. -/
  | noRoot (count : ℕ)
  /-- The loop guard `i < maxIterations` failed; the pixel is never
  written. -/
  | exhausted
  /-- The loop was still running after all the provided fuel. -/
  | running
deriving DecidableEq

/-- The per-pixel Newton loop of `iterateX`.  `n` counts executed
iterations; the source guard compares the wrapped `quint8` counter
`n % 256` against `maxIterations`.  `fuel` bounds how many iterations
this embedding unfolds; a result other than `running` is the loop's own
outcome. -/
def iterLoop (roots : List Cq) (maxIter : ℕ) : ℕ → ℕ → Option Cq → LoopResult
  | 0, _, _ => .running
  | fuel + 1, n, z =>
    if n % 256 < maxIter then
      let z0 := newtonStep z roots
      if absLtO (subO z0 z) EPS then
        match firstRootIdx z0 roots with
        | some r => .converged r (n % 256)
        | none => .noRoot (n % 256)
      else iterLoop roots maxIter fuel (n + 1) z0
    else .exhausted

/-- The color a single pixel ends up with: on convergence the source
writes `colors[r].darker(50 + i * 10)`; in every other case the loop
breaks (or exhausts) without writing, so the pixel keeps `init`, the
value the freshly created image buffer happened to hold there. -/
def renderPixelZ (roots : List Cq) (maxIter fuel : ℕ) (z : Cq) (init : Rgb) : Rgb :=
  match iterLoop roots maxIter fuel 0 (some z) with
  | .converged r n => darken (palette.getD r ⟨0, 0, 0⟩) (50 + 10 * n)
  | _ => init

/-- Modelled from the spec: the plane-window constants `XA`, `XB`, `YA`,
`YB` from the missing header `defaults.h`; the reference scenario of the
spec fixes the visible window to `[-2, 2] x [-2, 2]`. -/
def XA : ℚ := -2

/-- Modelled from the spec: right edge of the fixed plane window. -/
def XB : ℚ := 2

/-- Modelled from the spec: top edge of the fixed plane window. -/
def YA : ℚ := -2

/-- Modelled from the spec: bottom edge of the fixed plane window. -/
def YB : ℚ := 2

/-- The x-coordinate mapping of `iterateX`:
`il.zx = x * (XB - XA) / (il.lineSize - 1) + XA`.  The bounds are the
fixed compile-time constants, not fields of the render parameters. -/
def zxOf (x w : ℕ) : ℚ := (x : ℚ) * (XB - XA) / ((w : ℚ) - 1) + XA

/-- The y-coordinate mapping of `RenderThread::run`:
`il.zy = y * (YB - YA) / (height - 1) + YA`. -/
def zyOf (y h : ℕ) : ℚ := (y : ℚ) * (YB - YA) / ((h : ℚ) - 1) + YA

/-- The plane point the renderer starts the iteration from, for pixel
`(x, y)` of a `w x h` image. -/
def pixelPoint (x y w h : ℕ) : Cq := ⟨zxOf x w, zyOf y h⟩

/-- A viewport rectangle in plane coordinates, as in the data model of
the spec. -/
structure Viewport where
  left : ℚ
  right : ℚ
  top : ℚ
  bottom : ℚ
deriving DecidableEq

/-- Definition following the words of the spec, for comparison with the
source: `pixelToComplex(p, imageSize, viewport)` as linear interpolation
of `p.x` across `[viewport.left, viewport.right]` over `[0, width - 1]`
and of `p.y` across `[viewport.top, viewport.bottom]` over
`[0, height - 1]`. -/
def pixelToComplexSpec (x y w h : ℕ) (vp : Viewport) : Cq :=
  ⟨vp.left + (x : ℚ) * (vp.right - vp.left) / ((w : ℚ) - 1),
   vp.top + (y : ℚ) * (vp.bottom - vp.top) / ((h : ℚ) - 1)⟩

/-- The maximum supported root count.  The palette literal of the
renderer translation unit has exactly six entries, and the settings
widget compares the root count against the literal 6; the macro itself
lives in the missing header `defaults.h`. -/
def NR : ℕ := 6

/-- The render parameters as consumed by this renderer: the root list
and the iteration cap.  Modelled from the spec where the defining header
is missing: `maxIterations` is an unsigned integer with default 500. -/
structure Parameters where
  roots : List Cq
  maxIterations : ℕ
deriving DecidableEq

/-- The clamping performed by `RenderThread::render`: a root list longer
than `NR` is resized (truncated) to its first `NR` entries. -/
def clampParams (p : Parameters) : Parameters :=
  if NR < p.roots.length then { p with roots := p.roots.take NR } else p

/-- The scheduler state: the single pending-request slot `nextParams_`
plus, for observation, the parameter snapshots the emitted frames were
computed from (each frame is fully determined by its snapshot, so frames
are identified with their snapshots here). -/
structure SchedulerState where
  nextParams : Parameters
  emitted : List Parameters
deriving DecidableEq

/-- `RenderThread::render(params)`: under the lock, overwrite the single
pending slot with the clamped parameters.  No queueing, no failure. -/
def render (st : SchedulerState) (p : Parameters) : SchedulerState :=
  { st with nextParams := clampParams p }

/-- One iteration of the worker loop `RenderThread::run`: snapshot the
pending slot, compute a full frame from the snapshot, emit it.  The
source loop is `while (1)` and never waits for a new request, so every
iteration emits a frame from the current slot. -/
def runIter (st : SchedulerState) : SchedulerState :=
  { st with emitted := st.emitted ++ [st.nextParams] }

/-- `n` iterations of the worker loop. -/
def runLoop : ℕ → SchedulerState → SchedulerState
  | 0, st => st
  | n + 1, st => runLoop n (runIter st)

/-! Helper lemmas shared by several results below. -/

/-- Multiplying a finite value by the complex one is the identity. -/
theorem one_mulO (w : Option Cq) : mulO (some Cq.one) w = w := by
cases w with
| none => rfl
| some a =>
  show some (Cq.one.mul a) = some a
  congr 1
  cases a with
  | mk re im =>
    simp only [Cq.mul, Cq.one, Cq.mk.injEq]
    constructor
    · ring
    · ring

/-- With an empty root list the finite-difference derivative is exactly
zero: `func` is the constant one, so the difference quotient is zero. -/
theorem dzOf_nil (z : Cq) : dzOf (some z) [] = some Cq.zero := by
show divO (subO (some Cq.one) (some Cq.one)) (some stepC) = some Cq.zero
have hstep : stepC ≠ Cq.zero := by
  norm_num [stepC, HS, Cq.zero, Cq.mk.injEq]
simp only [subO, divO, if_neg hstep]
congr 1
simp only [Cq.sub, Cq.one, Cq.div, Cq.zero, Cq.normSq, Cq.mk.injEq]
norm_num

/-- With an empty root list the unguarded Newton step divides by the
zero derivative and produces the poisoned (non-finite) value. -/
theorem newtonStep_nil (z : Option Cq) : newtonStep z [] = none := by
cases z with
| none => rfl
| some z =>
  show subO (some z) (divO (some (func z [])) (dzOf (some z) [])) = none
  rw [dzOf_nil]
  simp [divO, subO]

/-- With an empty root list every loop iteration keeps a poisoned or
unchanged-to-poisoned iterate, so the loop can only exit through its
counter guard; it never reaches the `converged` case. -/
theorem iterLoop_nil_ne_converged (maxIter : ℕ) :
    ∀ (fuel n : ℕ) (z : Option Cq) (r c : ℕ),
      iterLoop [] maxIter fuel n z ≠ .converged r c := by
intro fuel
induction fuel with
| zero => intro n z r c; simp [iterLoop]
| succ fuel ih =>
  intro n z r c
  simp only [iterLoop]
  by_cases hg : n % 256 < maxIter
  · rw [if_pos hg]
    rw [newtonStep_nil]
    show (if absLtO (subO none z) EPS then _ else _) ≠ _
    have : absLtO (subO none z) EPS = false := by cases z <;> rfl
    rw [this]
    simp only [Bool.false_eq_true, if_false]
    exact ih (n + 1) none r c
  · rw [if_neg hg]
    intro h
    exact LoopResult.noConfusion h

/-- With an empty root list the pixel is never written: it keeps the
value the image buffer happened to hold initially. -/
theorem renderPixelZ_nil (maxIter fuel : ℕ) (z : Cq) (init : Rgb) :
    renderPixelZ [] maxIter fuel z init = init := by
unfold renderPixelZ
cases h : iterLoop [] maxIter fuel 0 (some z) with
| converged r c => exact absurd h (iterLoop_nil_ne_converged maxIter fuel 0 (some z) r c)
| noRoot c => rfl
| exhausted => rfl
| running => rfl

/-- The worker loop emits one frame per iteration, always computed from
the unchanged pending slot. -/
theorem runLoop_emitted (n : ℕ) (st : SchedulerState) :
    (runLoop n st).emitted = st.emitted ++ List.replicate n st.nextParams ∧
    (runLoop n st).nextParams = st.nextParams := by
induction n generalizing st with
| zero => simp [runLoop]
| succ n ih =>
  have h := ih (runIter st)
  refine ⟨?_, ?_⟩
  · show (runLoop n (runIter st)).emitted = _
    rw [h.1]
    show (st.emitted ++ [st.nextParams]) ++ List.replicate n st.nextParams = _
    rw [List.append_assoc, List.replicate_succ]
    rfl
  · show (runLoop n (runIter st)).nextParams = _
    rw [h.2]
    rfl

/-! Claim C2: the iteration step and the damping factor. -/

/-- C2, counterexample.  The claim states the per-pixel update is
`z - damping * evaluate(z, roots) / derivativeApprox(z, roots, step)`.
At the concrete input `z = 1`, one root at the origin and
`damping = 2 + 0i`, the code computes `0` while the claimed damped
update computes `-1`, so the claim is false: the code applies no
damping factor. -/
theorem c2_counterexample :
    newtonStep (some ⟨1, 0⟩) [⟨0, 0⟩] = some ⟨0, 0⟩ ∧
    claimedStep (some ⟨1, 0⟩) [⟨0, 0⟩] ⟨2, 0⟩ = some ⟨-1, 0⟩ ∧
    some (⟨0, 0⟩ : Cq) ≠ some (⟨-1, 0⟩ : Cq) := by
refine ⟨?_, ?_, ?_⟩
· norm_num [newtonStep, dzOf, funcO, func, addO, subO, divO, mulO, absLtO, stepC, HS,
            Cq.mul, Cq.add, Cq.sub, Cq.div, Cq.normSq, Cq.one, Cq.zero, Cq.mk.injEq,
            List.foldl]
· norm_num [claimedStep, dzOf, funcO, func, addO, subO, divO, mulO, absLtO, stepC, HS,
            Cq.mul, Cq.add, Cq.sub, Cq.div, Cq.normSq, Cq.one, Cq.zero, Cq.mk.injEq,
            List.foldl]
· norm_num [Cq.mk.injEq]

/-- C2, amended.  The per-pixel update of the source is the undamped
Newton step: it equals the claimed transition with the damping factor
fixed at `1 + 0i`, for every pixel state and root list; the damping
parameter of the settings layer is never consulted by this loop. -/
theorem c2_step_is_undamped (z : Option Cq) (roots : List Cq) :
    newtonStep z roots = claimedStep z roots Cq.one := by
unfold newtonStep claimedStep
rw [one_mulO]

/-! Claim C3: the iteration cap and termination. -/

/-- C3: evaluation of the code at the failing input.  With the default
`maxIterations = 500` the `quint8` loop counter wraps, so the guard
`i < maxIterations` compares a value below 256 with 500 and never
fails; on a pixel that never satisfies the fixed-point test (here: the
empty root list, whose zero derivative poisons the iterate) the loop is
still running after any number of iterations, contradicting the claimed
bound of `maxIterations` steps followed by the `Exhausted` state. -/
theorem c3_default_cap_never_terminates :
    ∀ (fuel n : ℕ) (z : Option Cq), iterLoop [] 500 fuel n z = .running := by
intro fuel
induction fuel with
| zero => intro n z; rfl
| succ fuel ih =>
  intro n z
  simp only [iterLoop]
  rw [if_pos (lt_trans (Nat.mod_lt n (by norm_num)) (by norm_num))]
  rw [newtonStep_nil]
  have habs : absLtO (subO none z) EPS = false := by cases z <;> rfl
  rw [habs]
  simp only [Bool.false_eq_true, if_false]
  exact ih (n + 1) none

/-! Claim C5: the division by a degenerate derivative. -/

/-- C5, counterexample.  The claim states the division by the derivative
is guarded and never produces non-finite values.  At the concrete pixel
value `0` with the empty root list the approximated derivative is
exactly zero (certainly below machine epsilon) and the unguarded
division produces the poisoned non-finite value (`none`), so the claim
is false. -/
theorem c5_counterexample :
    dzOf (some ⟨0, 0⟩) [] = some Cq.zero ∧ newtonStep (some ⟨0, 0⟩) [] = none :=
⟨dzOf_nil ⟨0, 0⟩, newtonStep_nil (some ⟨0, 0⟩)⟩

/-- C5, amended.  There is no guard: with a zero derivative (empty root
list) the division produces a non-finite value.  Because every
comparison against the non-finite value is false, the fixed-point test
never succeeds, so the pixel is indeed treated as non-convergent and is
left at the background (initial buffer) value — but the non-finite
value is produced and propagated internally rather than prevented. -/
theorem c5_zero_derivative_behavior :
    (∀ z : Cq, dzOf (some z) [] = some Cq.zero ∧ newtonStep (some z) [] = none) ∧
    (∀ (maxIter fuel : ℕ) (z : Cq) (init : Rgb),
      renderPixelZ [] maxIter fuel z init = init) :=
⟨fun z => ⟨dzOf_nil z, newtonStep_nil (some z)⟩,
 fun maxIter fuel z init => renderPixelZ_nil maxIter fuel z init⟩

/-! Claim C10: the polynomial evaluator on the empty root list. -/

/-- C10: for every complex number `z`, evaluating the polynomial with an
empty root list returns the constant `1 + 0i` (the empty product); the
evaluator is the same fold for every root list and performs no
special-casing of zero roots. -/
theorem c10_empty_root_list_product (z : Cq) : func z [] = ⟨1, 0⟩ := rfl

/-! Claim C1: request coalescing and frame emission. -/

/-- C1, counterexample.  After requests `P1, P2, P3` are issued before
any frame computation begins, the claim states exactly one frame is
emitted.  In the source the worker loop never waits for a new request
(`while (1)` with no condition wait), so after two loop iterations two
frames have been emitted — both computed from `P3`, but two, not one. -/
theorem c1_counterexample :
    (runLoop 2 (render (render (render ⟨⟨[], 500⟩, []⟩ ⟨[⟨1, 0⟩], 500⟩)
        ⟨[⟨2, 0⟩], 500⟩) ⟨[⟨3, 0⟩], 500⟩)).emitted
      = [⟨[⟨3, 0⟩], 500⟩, ⟨[⟨3, 0⟩], 500⟩] ∧
    (⟨[⟨3, 0⟩], 500⟩ : Parameters) ≠ ⟨[⟨1, 0⟩], 500⟩ ∧
    (⟨[⟨3, 0⟩], 500⟩ : Parameters) ≠ ⟨[⟨2, 0⟩], 500⟩ ∧
    ([(⟨[⟨3, 0⟩], 500⟩ : Parameters), ⟨[⟨3, 0⟩], 500⟩]).length ≠ 1 := by
refine ⟨rfl, ?_, ?_, by norm_num⟩
· norm_num [Parameters.mk.injEq, Cq.mk.injEq]
· norm_num [Parameters.mk.injEq, Cq.mk.injEq]

/-- C1, amended.  The pending slot is a single latest-wins cell: after
requests `P1, P2, P3` issued before any frame computation begins, every
frame the free-running worker loop ever emits is computed from the
stored (clamped) `P3` snapshot — `P1` and `P2` are superseded and
produce no output — but the loop emits one such frame per iteration
indefinitely rather than exactly one. -/
theorem c1_every_frame_from_latest (initP P1 P2 P3 : Parameters) (n : ℕ) :
    (runLoop n (render (render (render ⟨initP, []⟩ P1) P2) P3)).emitted
      = List.replicate n (clampParams P3) := by
have h : render (render (render ⟨initP, []⟩ P1) P2) P3
    = (⟨clampParams P3, []⟩ : SchedulerState) := rfl
rw [h]
have h2 := runLoop_emitted n ⟨clampParams P3, []⟩
rw [h2.1]
rfl

/-! Claim C6: the fate of non-converged pixels. -/

/-- C6, counterexample.  The claim states every exhausted pixel is
written with one fixed background color.  In the source an exhausted
pixel is never written at all: it keeps whatever value the freshly
allocated image buffer held.  At a concrete exhausting input (empty
root list, `maxIterations = 1`) two different initial buffer values
yield two different output values, so no single background constant
exists. -/
theorem c6_counterexample :
    ¬ ∃ bg : Rgb, ∀ init : Rgb, renderPixelZ [] 1 5 ⟨0, 0⟩ init = bg := by
rintro ⟨bg, h⟩
have h1 := h ⟨0, 0, 0⟩
have h2 := h ⟨9, 9, 9⟩
rw [renderPixelZ_nil] at h1 h2
have h3 : (⟨0, 0, 0⟩ : Rgb) = ⟨9, 9, 9⟩ := h1.trans h2.symm
simp [Rgb.mk.injEq] at h3

/-- C6, amended.  A pixel whose iteration never reaches the converged
case (counter exhaustion, or fixed point with no matching root) is left
unwritten and so retains the initial value of the image buffer at that
position; the source writes no background constant, and the damping
parameter plays no role in the loop at all. -/
theorem c6_unconverged_pixel_keeps_buffer_value (roots : List Cq)
    (maxIter fuel : ℕ) (z : Cq) (init : Rgb)
    (h : ∀ r n, iterLoop roots maxIter fuel 0 (some z) ≠ .converged r n) :
    renderPixelZ roots maxIter fuel z init = init := by
unfold renderPixelZ
cases hres : iterLoop roots maxIter fuel 0 (some z) with
| converged r n => exact absurd hres (h r n)
| noRoot n => rfl
| exhausted => rfl
| running => rfl

/-- C6, witness: a concrete non-converging pixel (empty root list) with
a concrete buffer value keeps that buffer value. -/
theorem c6_witness :
    renderPixelZ [] 1 5 ⟨0, 0⟩ ⟨7, 7, 7⟩ = ⟨7, 7, 7⟩ :=
c6_unconverged_pixel_keeps_buffer_value [] 1 5 ⟨0, 0⟩ ⟨7, 7, 7⟩
  (fun r n => iterLoop_nil_ne_converged 1 5 0 (some ⟨0, 0⟩) r n)

/-! Claim C9: clamping of over-long root lists. -/

/-- C9: `RenderThread::render` stores the parameters in the single
pending slot after clamping: a root list longer than the supported
maximum `NR` is truncated to exactly its first `NR` entries (the kept
prefix in order), and a list of at most `NR` roots is stored entirely
unchanged; the call never fails. -/
theorem c9_roots_clamped (st : SchedulerState) (p : Parameters) :
    (NR < p.roots.length → (render st p).nextParams.roots = p.roots.take NR) ∧
    (p.roots.length ≤ NR → (render st p).nextParams = p) := by
constructor
· intro h
  show (clampParams p).roots = _
  unfold clampParams
  rw [if_pos h]
· intro h
  show clampParams p = p
  unfold clampParams
  rw [if_neg (Nat.not_lt.mpr h)]

/-- C9, witness: a seven-root request is stored as its first six roots;
a one-root request is stored unchanged. -/
theorem c9_witness :
    (render ⟨⟨[], 0⟩, []⟩
        ⟨[⟨1, 0⟩, ⟨2, 0⟩, ⟨3, 0⟩, ⟨4, 0⟩, ⟨5, 0⟩, ⟨6, 0⟩, ⟨7, 0⟩], 0⟩).nextParams.roots
      = ([⟨1, 0⟩, ⟨2, 0⟩, ⟨3, 0⟩, ⟨4, 0⟩, ⟨5, 0⟩, ⟨6, 0⟩, ⟨7, 0⟩] : List Cq).take NR ∧
    (render ⟨⟨[], 0⟩, []⟩ ⟨[⟨1, 0⟩], 0⟩).nextParams = ⟨[⟨1, 0⟩], 0⟩ :=
⟨(c9_roots_clamped ⟨⟨[], 0⟩, []⟩ _).1 (by simp [NR]),
 (c9_roots_clamped ⟨⟨[], 0⟩, []⟩ _).2 (by simp [NR])⟩

/-! Claim C4: classification picks the lowest-index matching root. -/

/-- The classification scan started at index `k` returns the first
index at or after `k` whose root is within tolerance, and every earlier
scanned root fails the tolerance test. -/
theorem scanRoots_spec (z0 : Option Cq) :
    ∀ (l : List Cq) (k r : ℕ), scanRoots z0 k l = some r →
      k ≤ r ∧ r - k < l.length ∧
      absLtO (subO z0 (some (l.getD (r - k) Cq.zero))) EPS = true ∧
      ∀ j, j < r - k → absLtO (subO z0 (some (l.getD j Cq.zero))) EPS = false := by
intro l
induction l with
| nil =>
  intro k r h
  exact absurd h (by simp [scanRoots])
| cons root rest ih =>
  intro k r h
  simp only [scanRoots] at h
  by_cases hc : absLtO (subO z0 (some root)) EPS = true
  · rw [if_pos hc] at h
    have hk : k = r := by injection h
    subst hk
    refine ⟨le_refl k, by simp, ?_, ?_⟩
    · simpa [Nat.sub_self] using hc
    · intro j hj
      omega
  · rw [if_neg hc] at h
    obtain ⟨hkr, hlen, hmatch, hbefore⟩ := ih (k + 1) r h
    have hcf : absLtO (subO z0 (some root)) EPS = false := Bool.eq_false_iff.mpr hc
    refine ⟨by omega, by simp only [List.length_cons]; omega, ?_, ?_⟩
    · have hrk : r - k = (r - (k + 1)) + 1 := by omega
      rw [hrk]
      simpa using hmatch
    · intro j hj
      cases j with
      | zero => simpa using hcf
      | succ j2 =>
        have hj2 : j2 < r - (k + 1) := by omega
        simpa using hbefore j2 hj2

/-- C4: when the fixed-point test has succeeded and the classification
scan answers root index `r`, that root is within `EPS` of the converged
value and every root of lower index fails the tolerance test: the
lowest-index matching root always wins.  (The length bound reflects the
`quint8` root counter of the source; the renderer only ever sees lists
clamped to six roots.) -/
theorem c4_lowest_index_root_wins (z z0 : Option Cq) (roots : List Cq) (r : ℕ)
    (hfp : absLtO (subO z0 z) EPS = true)
    (hlen : roots.length ≤ 255)
    (hscan : firstRootIdx z0 roots = some r) :
    r < roots.length ∧
    absLtO (subO z0 (some (roots.getD r Cq.zero))) EPS = true ∧
    ∀ j, j < r → absLtO (subO z0 (some (roots.getD j Cq.zero))) EPS = false := by
unfold firstRootIdx at hscan
have hmod : roots.length % 256 = roots.length := Nat.mod_eq_of_lt (by omega)
rw [hmod, List.take_length] at hscan
obtain ⟨hk, hlen2, hmatch, hbefore⟩ := scanRoots_spec z0 roots 0 r hscan
rw [Nat.sub_zero] at hlen2 hmatch
refine ⟨hlen2, hmatch, fun j hj => hbefore j (by omega)⟩

/-- C4, witness: with a converged value at the origin and roots
`[5, 0]`, the scan returns index 1, which is within tolerance. -/
theorem c4_witness :
    1 < ([⟨5, 0⟩, ⟨0, 0⟩] : List Cq).length ∧
    absLtO (subO (some ⟨0, 0⟩)
        (some (([⟨5, 0⟩, ⟨0, 0⟩] : List Cq).getD 1 Cq.zero))) EPS = true := by
have h := c4_lowest_index_root_wins (some ⟨0, 0⟩) (some ⟨0, 0⟩) [⟨5, 0⟩, ⟨0, 0⟩] 1
  (by norm_num [absLtO, subO, Cq.sub, Cq.normSq, EPS])
  (by simp)
  (by norm_num [firstRootIdx, scanRoots, absLtO, subO, Cq.sub, Cq.normSq, EPS, Cq.zero,
                Cq.mk.injEq])
exact ⟨h.1, h.2.1⟩

/-! Claim C7: the color of a converged pixel. -/

/-- C7, counterexample.  The claim states a converged pixel gets the
color stored in the matched root, darkened.  Roots of this renderer are
bare complex numbers carrying no color: at a concrete pixel converging
to root 0 the source writes the darkened fixed-palette red, while the
claimed color (from the root itself — black, the default color of the
data model) is black. -/
theorem c7_counterexample :
    renderPixelZ [⟨0, 0⟩] 10 5 ⟨0, 0⟩ ⟨0, 0, 0⟩ = ⟨255, 0, 0⟩ ∧
    specConvergedColor ⟨0, 0, 0⟩ 0 = ⟨0, 0, 0⟩ ∧
    (⟨255, 0, 0⟩ : Rgb) ≠ ⟨0, 0, 0⟩ := by
refine ⟨?_, ?_, by simp [Rgb.mk.injEq]⟩
· norm_num [renderPixelZ, iterLoop, newtonStep, dzOf, funcO, func, addO, subO, divO, mulO,
            absLtO, stepC, HS, EPS, Cq.mul, Cq.add, Cq.sub, Cq.div, Cq.normSq, Cq.one,
            Cq.zero, Cq.mk.injEq, List.foldl, firstRootIdx, scanRoots, palette, darken]
· norm_num [specConvergedColor, darken]

/-- C7, amended.  A pixel converging to root index `r` at wrapped count
`n` is written with the fixed global palette color of index `r` (not a
color stored in the root) darkened by the factor `50 + 10 * n`; the
darkening factor grows with the count and the darkening is monotone:
a larger count never yields a brighter channel, with channel values
clamped to the representable 8-bit range. -/
theorem c7_palette_color_darkened :
    (∀ (roots : List Cq) (maxIter fuel : ℕ) (z : Cq) (init : Rgb) (r n : ℕ),
       iterLoop roots maxIter fuel 0 (some z) = .converged r n →
       renderPixelZ roots maxIter fuel z init
         = darken (palette.getD r ⟨0, 0, 0⟩) (50 + 10 * n)) ∧
    (∀ (c : Rgb) (n m : ℕ), n ≤ m →
       (darken c (50 + 10 * m)).red ≤ (darken c (50 + 10 * n)).red ∧
       (darken c (50 + 10 * m)).green ≤ (darken c (50 + 10 * n)).green ∧
       (darken c (50 + 10 * m)).blue ≤ (darken c (50 + 10 * n)).blue) := by
constructor
· intro roots maxIter fuel z init r n h
  unfold renderPixelZ
  rw [h]
· intro c n m hnm
  unfold darken
  rw [if_neg (by omega : (50 + 10 * n) ≠ 0), if_neg (by omega : (50 + 10 * m) ≠ 0)]
  have hdiv : ∀ ch : ℕ, ch * 100 / (50 + 10 * m) ≤ ch * 100 / (50 + 10 * n) :=
    fun ch => Nat.div_le_div_left (by omega) (by omega)
  exact ⟨min_le_min (le_refl 255) (hdiv c.red),
         min_le_min (le_refl 255) (hdiv c.green),
         min_le_min (le_refl 255) (hdiv c.blue)⟩

/-- C7, witness: a pixel starting at a root converges at count 0 and is
written with the darkened palette color of index 0, and the count-1
darkening of that palette color is no brighter in the red channel. -/
theorem c7_witness :
    renderPixelZ [⟨0, 0⟩] 10 5 ⟨0, 0⟩ ⟨7, 7, 7⟩
      = darken (palette.getD 0 ⟨0, 0, 0⟩) (50 + 10 * 0) ∧
    (darken ⟨255, 0, 0⟩ (50 + 10 * 1)).red ≤ (darken ⟨255, 0, 0⟩ (50 + 10 * 0)).red :=
⟨c7_palette_color_darkened.1 [⟨0, 0⟩] 10 5 ⟨0, 0⟩ ⟨7, 7, 7⟩ 0 0
  (by norm_num [iterLoop, newtonStep, dzOf, funcO, func, addO, subO, divO, mulO,
                absLtO, stepC, HS, EPS, Cq.mul, Cq.add, Cq.sub, Cq.div, Cq.normSq,
                Cq.one, Cq.zero, Cq.mk.injEq, List.foldl, firstRootIdx, scanRoots]),
 (c7_palette_color_darkened.2 ⟨255, 0, 0⟩ 0 1 (by norm_num)).1⟩

/-! Claim C8: the pixel-to-plane mapping. -/

/-- C8, counterexample.  The claim states the renderer maps pixels
through the viewport bounds of the current render parameters.  The
source interpolates over the fixed compile-time window instead: for the
pixel `(0, 0)` of a 2-by-2 image and a viewport `[0,1] x [0,1]` the
claimed plane point is the viewport corner `(0, 0)` while the renderer
uses `(-2, -2)`. -/
theorem c8_counterexample :
    pixelPoint 0 0 2 2 = ⟨-2, -2⟩ ∧
    pixelToComplexSpec 0 0 2 2 ⟨0, 1, 0, 1⟩ = ⟨0, 0⟩ ∧
    (⟨-2, -2⟩ : Cq) ≠ ⟨0, 0⟩ := by
refine ⟨?_, ?_, ?_⟩
· norm_num [pixelPoint, zxOf, zyOf, XA, XB, YA, YB, Cq.mk.injEq]
· norm_num [pixelToComplexSpec, Cq.mk.injEq]
· norm_num [Cq.mk.injEq]

/-- C8, amended.  For every pixel of an image with both dimensions at
least 2, the plane point used by the renderer is the linear
interpolation of `p.x` over `[XA, XB]` across `[0, width - 1]` and of
`p.y` over `[YA, YB]` across `[0, height - 1]` — the fixed compile-time
window, identical for every render request, not the viewport of the
current render parameters. -/
theorem c8_fixed_window_interpolation (x y w h : ℕ) (hw : 2 ≤ w) (hh : 2 ≤ h) :
    pixelPoint x y w h = pixelToComplexSpec x y w h ⟨XA, XB, YA, YB⟩ := by
unfold pixelPoint pixelToComplexSpec zxOf zyOf
congr 1
· ring
· ring

/-- C8, witness: the identity of the two mappings at the concrete pixel
`(3, 4)` of a 100-by-50 image. -/
theorem c8_witness :
    (2 ≤ 100) ∧ (2 ≤ 50) ∧
    pixelPoint 3 4 100 50 = pixelToComplexSpec 3 4 100 50 ⟨XA, XB, YA, YB⟩ :=
⟨by norm_num, by norm_num,
 c8_fixed_window_interpolation 3 4 100 50 (by norm_num) (by norm_num)⟩

end NewtonFractal
